import Mathlib

/-!
Verification of the response-caching overlay of the task-management-system
repository: the cache key builder, invalidation pattern builder, cache
middleware request paths (pkg/middleware cache middleware) and the
Redis-backed cache store wrapper (pkg/cache).

Strings are modelled with Lean `String` (Go strings are byte sequences;
all reasoning here is at the character-sequence level, which agrees with
Go's byte-wise view on the inputs considered).  HTTP response bodies are
modelled as `List Nat` byte sequences.
-/

/-- Response body bytes (Go `[]byte`). -/
abbrev Bytes := List Nat

/-- The parts of an `*http.Request` the cache middleware reads: method,
URL path, parsed query parameters in order of appearance (Go
`url.Values` keeps per-name values in order; `Get` returns the first),
and the `X-User-ID` header (`""` when the header is absent, as in Go's
`Header.Get`). -/
structure Request where
  method : String
  path : String
  query : List (String × String)
  userID : String
deriving DecidableEq

/-- Go `strings.Join` (specialised to a separator). -/
def goJoin (sep : String) : List String → String
  | [] => ""
  | [s] => s
  | s :: t :: rest => s ++ sep ++ goJoin sep (t :: rest)

/-- Character-level form of `goJoin` for a one-character separator; the
reasoning about key structure happens here. -/
def joinD (c : Char) : List (List Char) → List Char
  | [] => []
  | [s] => s
  | s :: t :: rest => s ++ c :: joinD c (t :: rest)

/-- Go `strings.Trim(s, "/")`: strip leading and trailing `'/'`. -/
def trimSlashes (s : String) : String :=
  String.mk (((s.data.dropWhile (fun c => c = '/')).reverse.dropWhile
    (fun c => c = '/')).reverse)

/-- Split a character list at every occurrence of `c`, with Go
`strings.Split` semantics for a one-character separator: the empty input
yields `[[]]`, adjacent separators yield empty segments. -/
def splitOnChar (c : Char) : List Char → List (List Char)
  | [] => [[]]
  | x :: rest =>
    if x = c then [] :: splitOnChar c rest
    else
      match splitOnChar c rest with
      | [] => [[x]]
      | h :: t => (x :: h) :: t

/-- `strings.Split(strings.Trim(path, "/"), "/")` from `buildCacheKey` /
`buildCachePatterns`. -/
def splitTrimPath (p : String) : List String :=
  (splitOnChar '/' (trimSlashes p).data).map String.mk

/-- `isCacheableParam` from the cache middleware: membership in the fixed
allow-list map. -/
def isCacheableParam (p : String) : Bool :=
  p == "status" || p == "limit" || p == "page" || p == "sort" || p == "order"

/-- Lexicographic order on sequences of naturals, as a Boolean test. -/
def lexLe : List Nat → List Nat → Bool
  | [], _ => true
  | _ :: _, [] => false
  | x :: xs, y :: ys => if x < y then true else if y < x then false else lexLe xs ys

/-- The string order used by Go's `sort.Strings`: byte-wise lexicographic
comparison (on the inputs considered this coincides with code-point-wise
comparison, since UTF-8 byte order agrees with code-point order). -/
def strLe (a b : String) : Prop :=
  lexLe (a.data.map Char.toNat) (b.data.map Char.toNat) = true

instance : DecidableRel strLe := fun _ _ => instDecidableEqBool _ _

/-- Go `sort.Strings`.  Modelled with insertion sort; the result is the
unique sorted arrangement, so the algorithm choice is immaterial. -/
def sortStrings (l : List String) : List String := List.insertionSort strLe l

/-- Go `params.Get(k)`: first value recorded for name `k`, `""` when
absent. -/
def queryGet (q : List (String × String)) (k : String) : String :=
  match q.find? (fun kv => kv.1 == k) with
  | some kv => kv.2
  | none => ""

/-- The sorted, allow-list-filtered set of parameter names present in the
query: Go ranges over the `url.Values` map (distinct names), filters with
`isCacheableParam` and applies `sort.Strings`.  `dedup` models the map's
distinct-name domain; the sort result is order-independent. -/
def sortedCacheableNames (q : List (String × String)) : List String :=
  sortStrings ((q.map Prod.fst).dedup.filter isCacheableParam)

/-- API version component: `parts[1]` when the path has at least two
segments, else the default `"v1"`. -/
def apiVersion (r : Request) : String := (splitTrimPath r.path).getD 1 "v1"

/-- Resource id component: `parts[3]` when present (`len(parts) > 3`). -/
def resourceIdOpt (r : Request) : Option String := (splitTrimPath r.path)[3]?

/-- The cacheable query parameters as sorted `(name, first value)` pairs. -/
def cacheableAssoc (r : Request) : List (String × String) :=
  (sortedCacheableNames r.query).map (fun k => (k, queryGet r.query k))

/-- The `queryParts` slice of `buildCacheKey`: `fmt.Sprintf("%s=%s", k, v)`
for each sorted allow-listed name. -/
def queryParts (r : Request) : List String :=
  (cacheableAssoc r).map (fun kv => kv.1 ++ "=" ++ kv.2)

/-- `strings.Join(queryParts, "&")`. -/
def normalizedQuery (r : Request) : String := goJoin "&" (queryParts r)

/-- The `keyParts` slice of `buildCacheKey`: version, the fixed resource
type `"tasks"`, the user id when the `X-User-ID` header is non-empty, the
resource id when the path has a fourth segment, and the joined query
string when any allow-listed parameter is present. -/
def keyParts (r : Request) : List String :=
  [apiVersion r, "tasks"]
    ++ (if r.userID ≠ "" then [r.userID] else [])
    ++ (resourceIdOpt r).toList
    ++ (if queryParts r ≠ [] then [normalizedQuery r] else [])

/-- `buildCacheKey` from the cache middleware:
`strings.Join(keyParts, ":")`. -/
def buildCacheKey (r : Request) : String := goJoin ":" (keyParts r)

/-- `buildCachePatterns` from the cache middleware: the base
`version:tasks:*` pattern, a user-scoped pattern when `X-User-ID` is
non-empty, and two resource-id patterns when the path has a fourth
segment. -/
def buildCachePatterns (r : Request) : List String :=
  let version := apiVersion r
  [version ++ ":tasks:*"]
    ++ (if r.userID ≠ "" then [version ++ ":tasks:" ++ r.userID ++ ":*"] else [])
    ++ (match resourceIdOpt r with
        | some rid =>
            [version ++ ":tasks:*:" ++ rid, version ++ ":tasks:*:" ++ rid ++ ":*"]
        | none => [])

/-- Glob matching with `'*'` matching zero or more characters and every
other character literal — the semantics of Redis `KEYS` patterns as used
by the invalidation patterns (which contain no `?`, `[]` or escapes).
Written with explicit fuel so that it is structurally recursive and
evaluates inside the kernel; each step shortens `pattern ++ s`, so
`|pattern| + |s| + 1` fuel always suffices. -/
def globGo : Nat → List Char → List Char → Bool
  | 0, _, _ => false
  | _ + 1, [], s => s.isEmpty
  | fuel + 1, c :: p, s =>
    if c = '*' then
      globGo fuel p s ||
        (match s with
         | [] => false
         | _ :: s2 => globGo fuel (c :: p) s2)
    else
      match s with
      | [] => false
      | x :: s2 => c = x && globGo fuel p s2

/-- Whether glob `pattern` matches the whole string `s`. -/
def globMatch (pattern s : String) : Bool :=
  globGo (pattern.length + s.length + 1) pattern.data s.data

/-- A single event issued by an HTTP handler against a
`http.ResponseWriter`: `Header().Set`, `WriteHeader`, or `Write`. -/
inductive WEvent where
  | setHeader (name value : String)
  | writeHeader (status : Nat)
  | write (b : Bytes)
deriving DecidableEq

/-- Replace-or-append for header maps, Go `Header().Set`. -/
def hset : List (String × String) → String → String → List (String × String)
  | [], k, v => [(k, v)]
  | (k2, v2) :: rest, k, v =>
    if k2 = k then (k, v) :: rest else (k2, v2) :: hset rest k v

/-- The state of the real client-side response writer: headers, the
status of the first `WriteHeader` call (later calls are superfluous and
ignored by `net/http`), and the accumulated body bytes. -/
structure RespWriter where
  headers : List (String × String)
  status : Option Nat
  body : Bytes
deriving DecidableEq

def RespWriter.empty : RespWriter := ⟨[], none, []⟩

def RespWriter.apply (w : RespWriter) : WEvent → RespWriter
  | .setHeader k v => { w with headers := hset w.headers k v }
  | .writeHeader c => { w with status := some (w.status.getD c) }
  | .write b => { w with body := w.body ++ b }

/-- Run a handler's event sequence against a writer. -/
def runEvents (es : List WEvent) (w : RespWriter) : RespWriter := es.foldl RespWriter.apply w

/-- The `status` field of `responseRecorder` after the events ran: the
last `WriteHeader` argument, `0` (Go zero value) if none. -/
def recorderStatus (es : List WEvent) : Nat :=
  es.foldl (fun st e => match e with | .writeHeader c => c | _ => st) 0

/-- The recorder's buffer after the events ran: the concatenation of all
`Write` payloads (`buf.Bytes()`). -/
def recorderBody (es : List WEvent) : Bytes :=
  es.foldl (fun b e => match e with | .write bs => b ++ bs | _ => b) []

/-- One store interaction issued by the middleware, for observing which
calls a request run performs. -/
inductive StoreCall where
  | get (key : String)
  | keys (pattern : String)
  | del (key : String)
  | set (key : String) (value : Bytes) (ttl : Nat)
deriving DecidableEq

def StoreCall.isSet : StoreCall → Bool
  | .set _ _ _ => true
  | _ => false

def StoreCall.isGet : StoreCall → Bool
  | .get _ => true
  | _ => false

/-- The cache-store interface the middleware uses (`RedisCache.Get`,
`Keys`, `Delete`, `Set`), over an abstract store state `σ`; every
operation may fail, and `Delete`/`Set` yield an updated state. -/
structure StoreOps (σ : Type) where
  get : σ → String → Except Unit Bytes
  keys : σ → String → Except Unit (List String)
  del : σ → String → Except Unit σ
  set : σ → String → Bytes → Nat → Except Unit σ

/-- The inner loop of `invalidateRelatedCaches`: delete each enumerated
key; a failed delete is logged and skipped. -/
def invalidateKeys (ops : StoreOps σ) :
    σ × List StoreCall → List String → σ × List StoreCall
  | acc, [] => acc
  | acc, k :: rest =>
    match ops.del acc.1 k with
    | .ok s2 => invalidateKeys ops (s2, acc.2 ++ [.del k]) rest
    | .error _ => invalidateKeys ops (acc.1, acc.2 ++ [.del k]) rest

/-- The outer loop of `invalidateRelatedCaches`: for each pattern,
enumerate matching keys (a failed enumeration is logged and the pattern
skipped with `continue`) and delete each. -/
def invalidatePatterns (ops : StoreOps σ) :
    σ × List StoreCall → List String → σ × List StoreCall
  | acc, [] => acc
  | acc, pat :: rest =>
    match ops.keys acc.1 pat with
    | .error _ => invalidatePatterns ops (acc.1, acc.2 ++ [.keys pat]) rest
    | .ok ks =>
        invalidatePatterns ops (invalidateKeys ops (acc.1, acc.2 ++ [.keys pat]) ks) rest

/-- `invalidateRelatedCaches`: run the pattern loop over
`buildCachePatterns`; the Go function always returns `nil`. -/
def invalidateRelatedCaches (ops : StoreOps σ) (s : σ) (r : Request) :
    σ × List StoreCall :=
  invalidatePatterns ops (s, []) (buildCachePatterns r)

/-- Everything observable about one request's trip through the cache
middleware: the response as delivered to the client, the final store
state, the store calls issued, and whether the wrapped handler ran. -/
structure RunResult (σ : Type) where
  client : RespWriter
  store : σ
  calls : List StoreCall
  originCalled : Bool
deriving DecidableEq

/-- `CacheHandler` from the cache middleware.  `next` is the wrapped
origin handler, given as the event sequence it would emit for the
request; `dur` is the configured expiration passed to `Set`.
Non-`GET` methods invalidate related keys and delegate; `GET` tries the
store, replays a hit with `Content-Type` and `X-Cache: HIT` headers, and
on a miss runs `next` through a `responseRecorder` and stores the
captured bytes when the recorded status is `200` or `201`. -/
def CacheHandler (ops : StoreOps σ) (dur : Nat) (next : Request → List WEvent)
    (s : σ) (r : Request) : RunResult σ :=
  if r.method ≠ "GET" then
    let inv := invalidateRelatedCaches ops s r
    { client := runEvents (next r) RespWriter.empty
      store := inv.1
      calls := inv.2
      originCalled := true }
  else
    match ops.get s (buildCacheKey r) with
    | .ok cached =>
        { client :=
            ((RespWriter.empty.apply
                (.setHeader "Content-Type" "application/json")).apply
              (.setHeader "X-Cache" "HIT")).apply (.write cached)
          store := s
          calls := [.get (buildCacheKey r)]
          originCalled := false }
    | .error _ =>
        if recorderStatus (next r) = 200 ∨ recorderStatus (next r) = 201 then
          match ops.set s (buildCacheKey r) (recorderBody (next r)) dur with
          | .ok s2 =>
              { client := runEvents (next r) RespWriter.empty, store := s2
                calls := [.get (buildCacheKey r),
                  .set (buildCacheKey r) (recorderBody (next r)) dur]
                originCalled := true }
          | .error _ =>
              { client := runEvents (next r) RespWriter.empty, store := s
                calls := [.get (buildCacheKey r),
                  .set (buildCacheKey r) (recorderBody (next r)) dur]
                originCalled := true }
        else
          { client := runEvents (next r) RespWriter.empty, store := s
            calls := [.get (buildCacheKey r)]
            originCalled := true }

/-- A store whose every operation fails: total outage. -/
def failStore (σ : Type) : StoreOps σ where
  get _ _ := .error ()
  keys _ _ := .error ()
  del _ _ := .error ()
  set _ _ _ _ := .error ()

/-- Character `i` of the standard base64 alphabet (`A-Za-z0-9+/`), used
by Go's `encoding/json` when marshalling a `[]byte`. -/
def b64char (i : Nat) : Char :=
  if i < 26 then Char.ofNat (65 + i)
  else if i < 52 then Char.ofNat (97 + (i - 26))
  else if i < 62 then Char.ofNat (48 + (i - 52))
  else if i = 62 then '+'
  else '/'

/-- Inverse of the base64 alphabet: the six-bit value of a character. -/
def b64val (c : Char) : Option Nat :=
  let n := c.toNat
  if 65 ≤ n ∧ n ≤ 90 then some (n - 65)
  else if 97 ≤ n ∧ n ≤ 122 then some (n - 97 + 26)
  else if 48 ≤ n ∧ n ≤ 57 then some (n - 48 + 52)
  else if c = '+' then some 62
  else if c = '/' then some 63
  else none

/-- Standard base64 encoding with padding (RFC 4648), three bytes at a
time. -/
def b64encode : Bytes → List Char
  | [] => []
  | [b1] => [b64char (b1 / 4), b64char (b1 % 4 * 16), '=', '=']
  | [b1, b2] =>
      [b64char (b1 / 4), b64char (b1 % 4 * 16 + b2 / 16), b64char (b2 % 16 * 4), '=']
  | b1 :: b2 :: b3 :: rest =>
      b64char (b1 / 4) :: b64char (b1 % 4 * 16 + b2 / 16) ::
        b64char (b2 % 16 * 4 + b3 / 64) :: b64char (b3 % 64) :: b64encode rest

/-- Base64 decoding of canonical padded input, four characters at a
time. -/
def b64decode : List Char → Option Bytes
  | [] => some []
  | c1 :: c2 :: c3 :: c4 :: rest =>
    match b64val c1, b64val c2 with
    | some v1, some v2 =>
      if c3 = '=' then
        if c4 = '=' ∧ rest = [] then some [v1 * 4 + v2 / 16] else none
      else
        match b64val c3 with
        | some v3 =>
          if c4 = '=' then
            if rest = [] then some [v1 * 4 + v2 / 16, v2 % 16 * 16 + v3 / 4]
            else none
          else
            match b64val c4, b64decode rest with
            | some v4, some tail =>
                some ((v1 * 4 + v2 / 16) :: (v2 % 16 * 16 + v3 / 4) ::
                  (v3 % 4 * 64 + v4) :: tail)
            | _, _ => none
        | none => none
    | _, _ => none
  | _ => none

/-- `json.Marshal` applied to a `[]byte` (as `RedisCache.Set` does): the
base64 text in JSON quotes.  No base64 character needs escaping. -/
def jsonMarshal (b : Bytes) : List Char := '"' :: (b64encode b ++ ['"'])

/-- `json.Unmarshal` of a stored value into a `*[]byte` (as
`RedisCache.Get` does): strip the quotes and base64-decode. -/
def jsonUnmarshal : List Char → Option Bytes
  | '"' :: rest =>
      if rest.getLast? = some '"' then b64decode rest.dropLast else none
  | _ => none

/-- Replace-or-append on the entry list of the Redis model (`SET`
overwrites unconditionally). -/
def setEntry : List (String × List Char × Nat) → String → List Char → Nat →
    List (String × List Char × Nat)
  | [], k, v, e => [(k, v, e)]
  | (k2, p) :: rest, k, v, e =>
      if k2 = k then (k, v, e) :: rest else (k2, p) :: setEntry rest k v e

/-- The state of the Redis server as `RedisCache` uses it: keys mapped to
a raw stored string and an absolute expiry instant. -/
structure RedisModel where
  entries : List (String × List Char × Nat)
deriving DecidableEq

/-- `RedisCache.Set`: marshal the value to JSON and store it with expiry
`now + ttl`. -/
def rset (m : RedisModel) (now : Nat) (k : String) (v : Bytes) (ttl : Nat) :
    RedisModel :=
  ⟨setEntry m.entries k (jsonMarshal v) (now + ttl)⟩

/-- `RedisCache.Get`: fetch the raw bytes of a live key and unmarshal.
Absent or expired keys, and unparsable values, yield `none`. -/
def rget (m : RedisModel) (now : Nat) (k : String) : Option Bytes :=
  match m.entries.find? (fun e => e.1 == k) with
  | some e => if now < e.2.2 then jsonUnmarshal e.2.1 else none
  | none => none

/-- `RedisCache.Keys`: all live keys matching the glob pattern. -/
def rkeys (m : RedisModel) (now : Nat) (pat : String) : List String :=
  (m.entries.filter (fun e => decide (now < e.2.2) && globMatch pat e.1)).map
    (fun e => e.1)

/-- `RedisCache.Delete` (`DEL`): drop the key; absent keys succeed
silently. -/
def rdel (m : RedisModel) (k : String) : RedisModel :=
  ⟨m.entries.filter (fun e => !(e.1 == k))⟩

/-- The middleware-facing operations of a live Redis store at instant
`now`, per the `RedisCache` wrapper. -/
def memStore (now : Nat) : StoreOps RedisModel where
  get m k := match rget m now k with | some v => .ok v | none => .error ()
  keys m pat := .ok (rkeys m now pat)
  del m k := .ok (rdel m k)
  set m k v ttl := .ok (rset m now k v ttl)

/-- Hypotheses under which `buildCacheKey` is collision-free: the derived
version, scope and resource id contain no key separator `':'`, parameter
names contain none of `':'`, `'&'`, `'='`, and parameter values contain
neither `':'` nor `'&'`. -/
def wfReq (r : Request) : Prop :=
  ':' ∉ (apiVersion r).data ∧ ':' ∉ r.userID.data ∧
    ':' ∉ ((resourceIdOpt r).getD "").data ∧
    ∀ kv ∈ cacheableAssoc r,
      (':' ∉ kv.1.data ∧ '&' ∉ kv.1.data ∧ '=' ∉ kv.1.data) ∧
        (':' ∉ kv.2.data ∧ '&' ∉ kv.2.data)

instance (r : Request) : Decidable (wfReq r) := by
  unfold wfReq
  exact inferInstance

/-- Two requests whose keys carry the same optional components: scope
present in both or neither, resource id likewise, and a non-empty
normalized query likewise. -/
def shapeEq (r1 r2 : Request) : Prop :=
  (r1.userID = "" ↔ r2.userID = "") ∧
    (resourceIdOpt r1).isSome = (resourceIdOpt r2).isSome ∧
    (queryParts r1 = [] ↔ queryParts r2 = [])

/-! Generic lemmas about separators, joins and the string order. -/

theorem split_at_sep {α : Type} {c : α} :
    ∀ {a1 b1 a2 b2 : List α},
      a1 ++ c :: b1 = a2 ++ c :: b2 → c ∉ a1 → c ∉ a2 → a1 = a2 ∧ b1 = b2 := by
  intro a1
  induction a1 with
  | nil =>
    intro b1 a2 b2 h h1 h2
    cases a2 with
    | nil => simpa using h
    | cons y t2 =>
      exfalso
      simp only [List.nil_append, List.cons_append, List.cons.injEq] at h
      obtain ⟨hcy, -⟩ := h
      exact h2 (by rw [← hcy]; exact List.mem_cons_self _ _)
  | cons x t ih =>
    intro b1 a2 b2 h h1 h2
    cases a2 with
    | nil =>
      exfalso
      simp only [List.cons_append, List.nil_append, List.cons.injEq] at h
      obtain ⟨hxc, -⟩ := h
      subst hxc
      exact h1 (List.mem_cons_self _ _)
    | cons y t2 =>
      simp only [List.cons_append, List.cons.injEq] at h
      obtain ⟨hxy, h2'⟩ := h
      subst hxy
      have hnt : c ∉ t := fun hm => h1 (List.mem_cons_of_mem _ hm)
      have hnt2 : c ∉ t2 := fun hm => h2 (List.mem_cons_of_mem _ hm)
      obtain ⟨ha, hb⟩ := ih h2' hnt hnt2
      exact ⟨by rw [ha], hb⟩

theorem joinD_length {c : Char} :
    ∀ l : List (List Char), l ≠ [] →
      (joinD c l).length + 1 = (l.map List.length).sum + l.length := by
  intro l
  induction l with
  | nil => intro h; exact absurd rfl h
  | cons s t ih =>
    intro _
    cases t with
    | nil => simp [joinD]
    | cons u r =>
      have h := ih (by simp)
      simp only [joinD, List.length_append, List.length_cons, List.map_cons,
        List.sum_cons] at h ⊢
      omega

theorem not_mem_joinD {c x : Char} (hx : x ≠ c) :
    ∀ {l : List (List Char)}, (∀ s ∈ l, x ∉ s) → x ∉ joinD c l := by
  intro l
  induction l with
  | nil => intro _; simp [joinD]
  | cons s t ih =>
    intro h
    cases t with
    | nil => simpa [joinD] using h s (by simp)
    | cons u r =>
      intro hm
      rcases List.mem_append.mp hm with h1 | h2
      · exact h s (by simp) h1
      · rcases List.mem_cons.mp h2 with h3 | h4
        · exact hx h3
        · exact ih (fun s2 hs2 => h s2 (List.mem_cons_of_mem _ hs2)) h4

theorem joinD_inj {c : Char} :
    ∀ {l1 l2 : List (List Char)}, l1 ≠ [] → l2 ≠ [] →
      (∀ s ∈ l1, c ∉ s) → (∀ s ∈ l2, c ∉ s) →
      joinD c l1 = joinD c l2 → l1 = l2 := by
  intro l1
  induction l1 with
  | nil => intro l2 h; exact absurd rfl h
  | cons s1 t1 ih =>
    intro l2 _ h2ne hf1 hf2 heq
    cases l2 with
    | nil => exact absurd rfl h2ne
    | cons s2 t2 =>
      cases t1 with
      | nil =>
        cases t2 with
        | nil => simpa [joinD] using heq
        | cons u2 r2 =>
          exfalso
          have hc : c ∈ s1 := by
            rw [show s1 = joinD c [s1] from rfl, heq]
            simp [joinD]
          exact hf1 s1 (by simp) hc
      | cons u1 r1 =>
        cases t2 with
        | nil =>
          exfalso
          have hc : c ∈ s2 := by
            rw [show s2 = joinD c [s2] from rfl, ← heq]
            simp [joinD]
          exact hf2 s2 (by simp) hc
        | cons u2 r2 =>
          simp only [joinD] at heq
          obtain ⟨hs, hj⟩ :=
            split_at_sep heq (hf1 s1 (by simp)) (hf2 s2 (by simp))
          have ht := @ih (u2 :: r2) (by simp) (by simp)
            (fun s hs2 => hf1 s (List.mem_cons_of_mem _ hs2))
            (fun s hs2 => hf2 s (List.mem_cons_of_mem _ hs2)) hj
          rw [hs, ht]

theorem goJoin_data {sep : String} {c : Char} (hsep : sep.data = [c]) :
    ∀ l : List String, (goJoin sep l).data = joinD c (l.map String.data) := by
  intro l
  induction l with
  | nil => rfl
  | cons s t ih =>
    cases t with
    | nil => rfl
    | cons u r =>
      show (s ++ sep ++ goJoin sep (u :: r)).data
          = s.data ++ c :: joinD c ((u :: r).map String.data)
      rw [String.data_append, String.data_append, hsep, ih]
      simp

theorem joinD_cons_inj_head {c : Char} :
    ∀ {R : List (List Char)} {u1 u2 : List Char},
      joinD c (u1 :: R) = joinD c (u2 :: R) → u1 = u2 := by
  intro R u1 u2 h
  cases R with
  | nil => simpa [joinD] using h
  | cons x rest =>
    simp only [joinD] at h
    have hlen : u1.length = u2.length := by
      have hl := congrArg List.length h
      simp only [List.length_append, List.length_cons] at hl
      omega
    exact (List.append_inj h hlen).1

theorem joinD_insert_ne {c : Char} (a t u : List Char) (R : List (List Char)) :
    joinD c (a :: t :: R) ≠ joinD c (a :: t :: u :: R) := by
  intro h
  have h1 := @joinD_length c (a :: t :: R) (by simp)
  have h2 := @joinD_length c (a :: t :: u :: R) (by simp)
  rw [h] at h1
  simp only [List.map_cons, List.sum_cons, List.length_cons] at h1 h2
  omega

theorem joinD_cancel_head {c : Char} {a : List Char} {l1 l2 : List (List Char)}
    (h1 : l1 ≠ []) (h2 : l2 ≠ []) :
    joinD c (a :: l1) = joinD c (a :: l2) → joinD c l1 = joinD c l2 := by
  intro h
  cases l1 with
  | nil => exact absurd rfl h1
  | cons u1 r1 =>
    cases l2 with
    | nil => exact absurd rfl h2
    | cons u2 r2 =>
      simp only [joinD] at h
      have h3 := List.append_cancel_left h
      simpa [joinD] using h3

theorem lexLe_total : ∀ x y : List Nat, lexLe x y = true ∨ lexLe y x = true := by
  intro x
  induction x with
  | nil => intro y; left; rfl
  | cons a xs ih =>
    intro y
    cases y with
    | nil => right; rfl
    | cons b ys =>
      by_cases hab : a < b
      · left; simp [lexLe, hab]
      · by_cases hba : b < a
        · right; simp [lexLe, hba]
        · rcases ih ys with h | h
          · left; simp [lexLe, hab, hba, h]
          · right; simp [lexLe, hab, hba, h]

theorem lexLe_trans :
    ∀ {x y z : List Nat}, lexLe x y = true → lexLe y z = true → lexLe x z = true := by
  intro x
  induction x with
  | nil => intro y z _ _; rfl
  | cons a xs ih =>
    intro y z hxy hyz
    cases y with
    | nil => simp [lexLe] at hxy
    | cons b ys =>
      cases z with
      | nil => simp [lexLe] at hyz
      | cons cz zs =>
        simp only [lexLe] at hxy hyz ⊢
        rcases Nat.lt_trichotomy a b with h1 | h1 | h1
        · rcases Nat.lt_trichotomy b cz with h2 | h2 | h2
          · simp [h1.trans h2]
          · subst h2; simp [h1]
          · rw [if_neg (by omega), if_pos h2] at hyz; exact absurd hyz (by simp)
        · subst h1
          rw [if_neg (lt_irrefl a), if_neg (lt_irrefl a)] at hxy
          rcases Nat.lt_trichotomy a cz with h2 | h2 | h2
          · simp [h2]
          · subst h2
            rw [if_neg (lt_irrefl a), if_neg (lt_irrefl a)] at hyz ⊢
            exact ih hxy hyz
          · rw [if_neg (by omega), if_pos h2] at hyz; exact absurd hyz (by simp)
        · rw [if_neg (by omega), if_pos h1] at hxy; exact absurd hxy (by simp)

theorem lexLe_antisymm :
    ∀ {x y : List Nat}, lexLe x y = true → lexLe y x = true → x = y := by
  intro x
  induction x with
  | nil =>
    intro y _ h2
    cases y with
    | nil => rfl
    | cons b ys => simp [lexLe] at h2
  | cons a xs ih =>
    intro y h1 h2
    cases y with
    | nil => simp [lexLe] at h1
    | cons b ys =>
      simp only [lexLe] at h1 h2
      rcases Nat.lt_trichotomy a b with h | h | h
      · rw [if_neg (by omega), if_pos h] at h2; exact absurd h2 (by simp)
      · subst h
        rw [if_neg (lt_irrefl a), if_neg (lt_irrefl a)] at h1 h2
        rw [ih h1 h2]
      · rw [if_neg (by omega), if_pos h] at h1; exact absurd h1 (by simp)

theorem char_toNat_injective : Function.Injective Char.toNat := by
  intro c d h
  have h2 := congrArg Char.ofNat h
  rwa [Char.ofNat_toNat, Char.ofNat_toNat] at h2

theorem strLe_total (a b : String) : strLe a b ∨ strLe b a := lexLe_total _ _

theorem strLe_trans' {a b c : String} (h1 : strLe a b) (h2 : strLe b c) :
    strLe a c := lexLe_trans h1 h2

theorem strLe_antisymm' {a b : String} (h1 : strLe a b) (h2 : strLe b a) :
    a = b := by
  have h := lexLe_antisymm h1 h2
  exact String.ext (List.map_injective_iff.mpr char_toNat_injective h)

/-! Scope separation (C7) and supporting key-structure facts. -/

theorem keyParts_eq (r : Request) :
    keyParts r = [apiVersion r, "tasks"]
      ++ (if r.userID ≠ "" then [r.userID] else [])
      ++ (resourceIdOpt r).toList
      ++ (if queryParts r ≠ [] then [normalizedQuery r] else []) := rfl

/-- Claim C7: two `GET` requests with identical path and query but
different `X-User-ID` values (the absent header counting as `""`) always
receive different cache keys. -/
theorem C7_scope_separation (r1 r2 : Request)
    (hp : r1.path = r2.path) (hq : r1.query = r2.query)
    (hu : r1.userID ≠ r2.userID) :
    buildCacheKey r1 ≠ buildCacheKey r2 := by
  have hA : apiVersion r1 = apiVersion r2 := by unfold apiVersion; rw [hp]
  have hRid : resourceIdOpt r1 = resourceIdOpt r2 := by unfold resourceIdOpt; rw [hp]
  have hQ : queryParts r1 = queryParts r2 := by
    unfold queryParts cacheableAssoc sortedCacheableNames; rw [hq]
  have hNq : normalizedQuery r1 = normalizedQuery r2 := by
    unfold normalizedQuery; rw [hQ]
  intro hkey
  have hdata := congrArg String.data hkey
  unfold buildCacheKey at hdata
  rw [goJoin_data rfl, goJoin_data rfl, keyParts_eq, keyParts_eq, hA, hRid, hQ,
    hNq] at hdata
  by_cases h1 : r1.userID = "" <;> by_cases h2 : r2.userID = ""
  · exact hu (h1.trans h2.symm)
  · rw [if_neg (not_not_intro h1), if_pos h2] at hdata
    simp only [List.append_assoc, List.nil_append, List.map_append,
      List.map_cons, List.cons_append, List.singleton_append] at hdata
    exact joinD_insert_ne _ _ _ _ hdata
  · rw [if_pos h1, if_neg (not_not_intro h2)] at hdata
    simp only [List.append_assoc, List.nil_append, List.map_append,
      List.map_cons, List.cons_append, List.singleton_append] at hdata
    exact joinD_insert_ne _ _ _ _ hdata.symm
  · rw [if_pos h1, if_pos h2] at hdata
    simp only [List.append_assoc, List.nil_append, List.map_append,
      List.map_cons, List.cons_append, List.singleton_append] at hdata
    have hc1 := joinD_cancel_head (by simp) (by simp) hdata
    have hc2 := joinD_cancel_head (by simp) (by simp) hc1
    have hud := joinD_cons_inj_head hc2
    exact hu (String.ext hud)

/-- Witness for C7 at concrete requests. -/
theorem C7_scope_separation_witness :
    let r1 : Request := ⟨"GET", "/api/v1/tasks", [("status", "pending")], "alice"⟩
    let r2 : Request := ⟨"GET", "/api/v1/tasks", [("status", "pending")], "bob"⟩
    buildCacheKey r1 ≠ buildCacheKey r2 :=
  C7_scope_separation _ _ rfl rfl (by decide)

/-! Parameter-order independence (C4). -/

theorem sortStrings_eq_of_perm {l1 l2 : List String} (h : l1.Perm l2) :
    sortStrings l1 = sortStrings l2 := by
  have ha : IsAntisymm String strLe := ⟨fun a b h1 h2 => strLe_antisymm' h1 h2⟩
  have ht : IsTotal String strLe := ⟨strLe_total⟩
  have htr : IsTrans String strLe := ⟨fun a b c h1 h2 => strLe_trans' h1 h2⟩
  exact @List.eq_of_perm_of_sorted String strLe ha _ _
    ((List.perm_insertionSort strLe l1).trans
      (h.trans (List.perm_insertionSort strLe l2).symm))
    (@List.sorted_insertionSort String strLe _ ht htr l1)
    (@List.sorted_insertionSort String strLe _ ht htr l2)

theorem sortedCacheableNames_perm {q1 q2 : List (String × String)}
    (h : q1.Perm q2) :
    sortedCacheableNames q1 = sortedCacheableNames q2 :=
  sortStrings_eq_of_perm (((h.map Prod.fst).dedup).filter isCacheableParam)

theorem nodup_fst_eq {l : List (String × String)}
    (h : (l.map Prod.fst).Nodup) {x y : String × String}
    (hx : x ∈ l) (hy : y ∈ l) (hfst : x.1 = y.1) : x = y := by
  induction l with
  | nil => cases hx
  | cons a t ih =>
    rw [List.map_cons, List.nodup_cons] at h
    rcases List.mem_cons.mp hx with rfl | hx2 <;>
      rcases List.mem_cons.mp hy with rfl | hy2
    · rfl
    · exact absurd (hfst ▸ List.mem_map_of_mem Prod.fst hy2) h.1
    · exact absurd (hfst ▸ List.mem_map_of_mem Prod.fst hx2) h.1
    · exact ih h.2 hx2 hy2

theorem queryGet_perm {q1 q2 : List (String × String)} (h : q1.Perm q2)
    (hnd : (q1.map Prod.fst).Nodup) (k : String) :
    queryGet q1 k = queryGet q2 k := by
  unfold queryGet
  cases hf1 : q1.find? (fun kv => kv.1 == k) with
  | none =>
    cases hf2 : q2.find? (fun kv => kv.1 == k) with
    | none => rfl
    | some kv =>
      exact absurd (List.find?_some hf2)
        (List.find?_eq_none.mp hf1 kv (h.mem_iff.mpr (List.mem_of_find?_eq_some hf2)))
  | some kv =>
    cases hf2 : q2.find? (fun kv => kv.1 == k) with
    | none =>
      exact absurd (List.find?_some hf1)
        (List.find?_eq_none.mp hf2 kv (h.mem_iff.mp (List.mem_of_find?_eq_some hf1)))
    | some kv2 =>
      have hm := List.mem_of_find?_eq_some hf1
      have hm2 : kv2 ∈ q1 := h.mem_iff.mpr (List.mem_of_find?_eq_some hf2)
      have hk : kv = kv2 := by
        apply nodup_fst_eq hnd hm hm2
        have e1 : kv.1 = k := by simpa using List.find?_some hf1
        have e2 : kv2.1 = k := by simpa using List.find?_some hf2
        rw [e1, e2]
      rw [hk]

/-- Claim C4, as amended: two `GET` requests identical except for the
order of their query parameters receive the same cache key, provided no
parameter name occurs more than once (with a duplicated name, reordering
can change which value `url.Values.Get` reads). -/
theorem C4_param_order_amended (r1 r2 : Request)
    (hp : r1.path = r2.path) (hu : r1.userID = r2.userID)
    (hperm : r1.query.Perm r2.query)
    (hnd : (r1.query.map Prod.fst).Nodup) :
    buildCacheKey r1 = buildCacheKey r2 := by
  have hassoc : cacheableAssoc r1 = cacheableAssoc r2 := by
    unfold cacheableAssoc
    rw [sortedCacheableNames_perm hperm]
    apply List.map_congr_left
    intro k _
    rw [queryGet_perm hperm hnd k]
  have hA : apiVersion r1 = apiVersion r2 := by unfold apiVersion; rw [hp]
  have hR : resourceIdOpt r1 = resourceIdOpt r2 := by unfold resourceIdOpt; rw [hp]
  have hQ : queryParts r1 = queryParts r2 := by unfold queryParts; rw [hassoc]
  have hN : normalizedQuery r1 = normalizedQuery r2 := by unfold normalizedQuery; rw [hQ]
  unfold buildCacheKey
  rw [keyParts_eq, keyParts_eq, hA, hR, hQ, hN, hu]

/-- Witness for the amended C4 at the spec's own example. -/
theorem C4_param_order_amended_witness :
    buildCacheKey ⟨"GET", "/api/v1/tasks", [("status", "pending"), ("page", "1")], ""⟩
      = buildCacheKey ⟨"GET", "/api/v1/tasks", [("page", "1"), ("status", "pending")], ""⟩ :=
  C4_param_order_amended _ _ rfl rfl (List.Perm.swap _ _ _) (by decide)

/-- Counterexample to C4 as stated: with a duplicated parameter name the
two orderings are permutations of each other yet receive different keys,
because `Get` reads the first occurrence. -/
theorem C4_param_order_cex :
    (([(("status" : String), ("a" : String)), ("status", "b")] : List (String × String)).Perm
        [("status", "b"), ("status", "a")]) ∧
      buildCacheKey ⟨"GET", "/api/v1/tasks", [("status", "a"), ("status", "b")], ""⟩
        ≠ buildCacheKey ⟨"GET", "/api/v1/tasks", [("status", "b"), ("status", "a")], ""⟩ :=
  ⟨List.Perm.swap _ _ _, by decide⟩

/-! Non-allow-listed parameters are key-irrelevant (C6). -/

theorem dedup_filter_middle {α : Type} [DecidableEq α] {p : α → Bool} {n : α}
    (hn : p n = false) :
    ∀ (A B : List α), (A ++ n :: B).dedup.filter p = (A ++ B).dedup.filter p := by
  intro A
  induction A with
  | nil =>
    intro B
    by_cases hm : n ∈ B
    · rw [List.nil_append, List.dedup_cons_of_mem hm, List.nil_append]
    · rw [List.nil_append, List.dedup_cons_of_not_mem hm, List.nil_append,
        List.filter_cons]
      simp [hn]
  | cons a A ih =>
    intro B
    simp only [List.cons_append]
    by_cases han : a = n
    · subst han
      rw [List.dedup_cons_of_mem (by simp), ih]
      by_cases hm : a ∈ A ++ B
      · rw [List.dedup_cons_of_mem hm]
      · rw [List.dedup_cons_of_not_mem hm, List.filter_cons]
        simp [hn]
    · have hiff : a ∈ A ++ n :: B ↔ a ∈ A ++ B := by
        simp only [List.mem_append, List.mem_cons]
        tauto
      by_cases hm : a ∈ A ++ B
      · rw [List.dedup_cons_of_mem (hiff.mpr hm), List.dedup_cons_of_mem hm, ih]
      · rw [List.dedup_cons_of_not_mem (fun hx => hm (hiff.mp hx)),
          List.dedup_cons_of_not_mem hm]
        simp only [List.filter_cons]
        rw [ih]

theorem find?_middle_ne {q1 q2 : List (String × String)} {n v k : String}
    (hk : k ≠ n) :
    (q1 ++ (n, v) :: q2).find? (fun kv => kv.1 == k)
      = (q1 ++ q2).find? (fun kv => kv.1 == k) := by
  induction q1 with
  | nil =>
    have hb : ((n, v).1 == k) = false := by
      simp only []
      exact beq_eq_false_iff_ne.mpr (Ne.symm hk)
    simp [List.find?_cons, hb]
  | cons head t ih =>
    simp only [List.cons_append, List.find?_cons]
    cases hph : (head.1 == k) with
    | true => rfl
    | false => exact ih

theorem queryGet_middle_ne {q1 q2 : List (String × String)} {n v k : String}
    (hk : k ≠ n) :
    queryGet (q1 ++ (n, v) :: q2) k = queryGet (q1 ++ q2) k := by
  unfold queryGet
  rw [find?_middle_ne hk]

/-- Claim C6: adding or removing a query parameter whose name is outside
the allow-list `{status, limit, page, sort, order}` leaves the cache key
unchanged, wherever in the query string it appears. -/
theorem C6_non_allowlisted_irrelevant (method path userID : String)
    (q1 q2 : List (String × String)) (n v : String)
    (hn : isCacheableParam n = false) :
    buildCacheKey ⟨method, path, q1 ++ (n, v) :: q2, userID⟩
      = buildCacheKey ⟨method, path, q1 ++ q2, userID⟩ := by
  have hnames : sortedCacheableNames (q1 ++ (n, v) :: q2)
      = sortedCacheableNames (q1 ++ q2) := by
    unfold sortedCacheableNames
    have h1 : (q1 ++ (n, v) :: q2).map Prod.fst
        = q1.map Prod.fst ++ n :: q2.map Prod.fst := by simp
    have h2 : (q1 ++ q2).map Prod.fst = q1.map Prod.fst ++ q2.map Prod.fst := by
      simp
    rw [h1, h2, dedup_filter_middle hn]
  have hassoc : cacheableAssoc ⟨method, path, q1 ++ (n, v) :: q2, userID⟩
      = cacheableAssoc ⟨method, path, q1 ++ q2, userID⟩ := by
    unfold cacheableAssoc
    show (sortedCacheableNames (q1 ++ (n, v) :: q2)).map
        (fun k => (k, queryGet (q1 ++ (n, v) :: q2) k))
      = (sortedCacheableNames (q1 ++ q2)).map (fun k => (k, queryGet (q1 ++ q2) k))
    rw [hnames]
    apply List.map_congr_left
    intro k hk
    have hkc : isCacheableParam k = true := by
      have hmem : k ∈ (((q1 ++ q2).map Prod.fst).dedup.filter isCacheableParam) :=
        (List.perm_insertionSort strLe _).subset hk
      exact List.of_mem_filter hmem
    have hkn : k ≠ n := fun he => by rw [he, hn] at hkc; cases hkc
    rw [queryGet_middle_ne hkn]
  have hQ : queryParts ⟨method, path, q1 ++ (n, v) :: q2, userID⟩
      = queryParts ⟨method, path, q1 ++ q2, userID⟩ := by
    unfold queryParts; rw [hassoc]
  unfold buildCacheKey
  rw [keyParts_eq, keyParts_eq, hQ]
  show goJoin ":" ([apiVersion _, "tasks"] ++ _ ++ (resourceIdOpt _).toList ++ _)
      = goJoin ":" ([apiVersion _, "tasks"] ++ _ ++ (resourceIdOpt _).toList ++ _)
  unfold apiVersion resourceIdOpt normalizedQuery
  rw [hQ]

/-- Witness for C6 at the spec's own example (`foo=bar` is ignored). -/
theorem C6_non_allowlisted_irrelevant_witness :
    buildCacheKey ⟨"GET", "/api/v1/tasks", [("status", "pending"), ("foo", "bar")], ""⟩
      = buildCacheKey ⟨"GET", "/api/v1/tasks", [("status", "pending")], ""⟩ :=
  C6_non_allowlisted_irrelevant "GET" "/api/v1/tasks" ""
    [("status", "pending")] [] "foo" "bar" (by decide)

/-! Key precision (C8): under well-formedness, `buildCacheKey` is
injective in each component; without it, distinct logical queries can
collide. -/

theorem pair_encode_inj {k1 v1 k2 v2 : String}
    (h1 : '=' ∉ k1.data) (h2 : '=' ∉ k2.data)
    (he : k1 ++ "=" ++ v1 = k2 ++ "=" ++ v2) : k1 = k2 ∧ v1 = v2 := by
  have hd := congrArg String.data he
  rw [String.data_append, String.data_append, String.data_append,
    String.data_append] at hd
  have hd2 : k1.data ++ '=' :: v1.data = k2.data ++ '=' :: v2.data := by
    simpa using hd
  obtain ⟨ha, hb⟩ := split_at_sep hd2 h1 h2
  exact ⟨String.ext ha, String.ext hb⟩

theorem assoc_encode_inj :
    ∀ {l1 l2 : List (String × String)},
      (∀ kv ∈ l1, '=' ∉ kv.1.data) → (∀ kv ∈ l2, '=' ∉ kv.1.data) →
      l1.map (fun kv => kv.1 ++ "=" ++ kv.2)
        = l2.map (fun kv => kv.1 ++ "=" ++ kv.2) →
      l1 = l2 := by
  intro l1
  induction l1 with
  | nil =>
    intro l2 _ _ h
    cases l2 with
    | nil => rfl
    | cons y t2 => simp at h
  | cons x t ih =>
    intro l2 hf1 hf2 h
    cases l2 with
    | nil => simp at h
    | cons y t2 =>
      simp only [List.map_cons, List.cons.injEq] at h
      obtain ⟨hxy, ht⟩ := h
      obtain ⟨hk, hv⟩ := pair_encode_inj (hf1 x (by simp)) (hf2 y (by simp)) hxy
      have hrest := ih (fun kv hkv => hf1 kv (List.mem_cons_of_mem _ hkv))
        (fun kv hkv => hf2 kv (List.mem_cons_of_mem _ hkv)) ht
      rw [hrest, Prod.ext hk hv]

theorem normalizedQuery_colon_free {r : Request}
    (h4 : ∀ kv ∈ cacheableAssoc r,
      (':' ∉ kv.1.data ∧ '&' ∉ kv.1.data ∧ '=' ∉ kv.1.data) ∧
        (':' ∉ kv.2.data ∧ '&' ∉ kv.2.data)) :
    ':' ∉ (normalizedQuery r).data := by
  unfold normalizedQuery
  rw [goJoin_data rfl]
  apply not_mem_joinD (by decide)
  intro s hs
  rw [List.mem_map] at hs
  obtain ⟨t, ht, rfl⟩ := hs
  unfold queryParts at ht
  rw [List.mem_map] at ht
  obtain ⟨kv, hkv, rfl⟩ := ht
  obtain ⟨⟨hk1, -, -⟩, hv1, -⟩ := h4 kv hkv
  rw [String.data_append, String.data_append]
  intro hmem
  rcases List.mem_append.mp hmem with hm | hm
  · rcases List.mem_append.mp hm with hm2 | hm2
    · exact hk1 hm2
    · exact absurd hm2 (by decide)
  · exact hv1 hm

theorem keyParts_ne_nil (r : Request) : keyParts r ≠ [] := by
  rw [keyParts_eq]
  simp

theorem keyParts_colon_free {r : Request} (hwf : wfReq r) :
    ∀ s ∈ keyParts r, ':' ∉ s.data := by
  obtain ⟨h1, h2, h3, h4⟩ := hwf
  intro s hs
  rw [keyParts_eq] at hs
  rcases List.mem_append.mp hs with hs1 | hsq
  · rcases List.mem_append.mp hs1 with hs2 | hsr
    · rcases List.mem_append.mp hs2 with hs3 | hsu
      · rcases List.mem_cons.mp hs3 with rfl | hs4
        · exact h1
        · rcases List.mem_cons.mp hs4 with rfl | hs5
          · decide
          · cases hs5
      · by_cases hu : r.userID ≠ ""
        · rw [if_pos hu] at hsu
          rcases List.mem_cons.mp hsu with rfl | hs5
          · exact h2
          · cases hs5
        · rw [if_neg hu] at hsu; cases hsu
    · cases hr : resourceIdOpt r with
      | none => rw [hr] at hsr; cases hsr
      | some rid =>
        rw [hr] at hsr h3
        rcases List.mem_cons.mp hsr with rfl | hs5
        · simpa using h3
        · cases hs5
  · by_cases hq : queryParts r ≠ []
    · rw [if_pos hq] at hsq
      rcases List.mem_cons.mp hsq with rfl | hs5
      · exact normalizedQuery_colon_free h4
      · cases hs5
    · rw [if_neg hq] at hsq; cases hsq

theorem map_data_ne_nil {l : List String} (h : l ≠ []) :
    l.map String.data ≠ [] := by
  intro h2
  apply h
  cases l with
  | nil => rfl
  | cons a t => simp at h2

theorem queryPieces_amp_free {r : Request}
    (h4 : ∀ kv ∈ cacheableAssoc r,
      (':' ∉ kv.1.data ∧ '&' ∉ kv.1.data ∧ '=' ∉ kv.1.data) ∧
        (':' ∉ kv.2.data ∧ '&' ∉ kv.2.data)) :
    ∀ s ∈ (queryParts r).map String.data, '&' ∉ s := by
  intro s hs
  rw [List.mem_map] at hs
  obtain ⟨t, ht, rfl⟩ := hs
  unfold queryParts at ht
  rw [List.mem_map] at ht
  obtain ⟨kv, hkv, rfl⟩ := ht
  obtain ⟨⟨-, hk2, -⟩, -, hv2⟩ := h4 kv hkv
  rw [String.data_append, String.data_append]
  intro hmem
  rcases List.mem_append.mp hmem with hm | hm
  · rcases List.mem_append.mp hm with hm2 | hm2
    · exact hk2 hm2
    · exact absurd hm2 (by decide)
  · exact hv2 hm

/-- Claim C8, as amended: on requests whose derived key components are
well-formed (no `':'` in version, scope or resource id; no `':'`, `'&'`
or `'='` in parameter names; no `':'` or `'&'` in parameter values) and
which present the same optional components, `buildCacheKey` is injective:
equal keys force equal version, scope, resource id and allow-listed
parameter assignment.  Outside these conditions distinct queries can
collide (see the counterexample). -/
theorem C8_no_conflation_amended (r1 r2 : Request)
    (hw1 : wfReq r1) (hw2 : wfReq r2) (hs : shapeEq r1 r2)
    (hkey : buildCacheKey r1 = buildCacheKey r2) :
    apiVersion r1 = apiVersion r2 ∧ r1.userID = r2.userID ∧
      resourceIdOpt r1 = resourceIdOpt r2 ∧
      cacheableAssoc r1 = cacheableAssoc r2 := by
  obtain ⟨hsu, hsr, hsq⟩ := hs
  have hdata := congrArg String.data hkey
  unfold buildCacheKey at hdata
  rw [goJoin_data rfl, goJoin_data rfl] at hdata
  have hf1 : ∀ s ∈ (keyParts r1).map String.data, ':' ∉ s := by
    intro s hsmem
    obtain ⟨t, ht, rfl⟩ := List.mem_map.mp hsmem
    exact keyParts_colon_free hw1 t ht
  have hf2 : ∀ s ∈ (keyParts r2).map String.data, ':' ∉ s := by
    intro s hsmem
    obtain ⟨t, ht, rfl⟩ := List.mem_map.mp hsmem
    exact keyParts_colon_free hw2 t ht
  have hmap := joinD_inj (map_data_ne_nil (keyParts_ne_nil r1))
    (map_data_ne_nil (keyParts_ne_nil r2)) hf1 hf2 hdata
  have hkp : keyParts r1 = keyParts r2 :=
    List.map_injective_iff.mpr (fun a b hab => String.ext hab) hmap
  rw [keyParts_eq, keyParts_eq] at hkp
  simp only [List.append_assoc] at hkp
  have hlu : (if r1.userID ≠ "" then [r1.userID] else []).length
      = (if r2.userID ≠ "" then [r2.userID] else []).length := by
    by_cases hu1 : r1.userID = ""
    · rw [if_neg (not_not_intro hu1), if_neg (not_not_intro (hsu.mp hu1))]
    · rw [if_pos hu1, if_pos (fun h => hu1 (hsu.mpr h))]
      rfl
  have hlr : (resourceIdOpt r1).toList.length
      = (resourceIdOpt r2).toList.length := by
    revert hsr
    cases resourceIdOpt r1 <;> cases resourceIdOpt r2 <;> intro hsr <;> simp_all
  obtain ⟨hAT, hrest⟩ := List.append_inj hkp rfl
  obtain ⟨hU, hrest2⟩ := List.append_inj hrest hlu
  obtain ⟨hR, hQ⟩ := List.append_inj hrest2 hlr
  have hA : apiVersion r1 = apiVersion r2 := by
    have h := hAT
    simp only [List.cons.injEq] at h
    exact h.1
  have hUid : r1.userID = r2.userID := by
    by_cases hu1 : r1.userID = ""
    · rw [hu1, hsu.mp hu1]
    · have hu2 : ¬r2.userID = "" := fun h => hu1 (hsu.mpr h)
      rw [if_pos hu1, if_pos hu2] at hU
      simpa using hU
  have hRid : resourceIdOpt r1 = resourceIdOpt r2 := by
    revert hsr hR
    cases resourceIdOpt r1 <;> cases resourceIdOpt r2 <;> intro hsr hR <;> simp_all
  have hAssoc : cacheableAssoc r1 = cacheableAssoc r2 := by
    by_cases hq1 : queryParts r1 = []
    · have hq2 : queryParts r2 = [] := hsq.mp hq1
      have e1 : cacheableAssoc r1 = [] := by
        cases h : cacheableAssoc r1 with
        | nil => rfl
        | cons a t => unfold queryParts at hq1; rw [h] at hq1; simp at hq1
      have e2 : cacheableAssoc r2 = [] := by
        cases h : cacheableAssoc r2 with
        | nil => rfl
        | cons a t => unfold queryParts at hq2; rw [h] at hq2; simp at hq2
      rw [e1, e2]
    · have hq2 : ¬queryParts r2 = [] := fun h => hq1 (hsq.mpr h)
      rw [if_pos hq1, if_pos hq2] at hQ
      have hnq : normalizedQuery r1 = normalizedQuery r2 := by simpa using hQ
      unfold normalizedQuery at hnq
      have hd := congrArg String.data hnq
      rw [goJoin_data rfl, goJoin_data rfl] at hd
      have hp := joinD_inj (map_data_ne_nil hq1) (map_data_ne_nil hq2)
        (queryPieces_amp_free hw1.2.2.2) (queryPieces_amp_free hw2.2.2.2) hd
      have hqp : queryParts r1 = queryParts r2 :=
        List.map_injective_iff.mpr (fun a b hab => String.ext hab) hp
      unfold queryParts at hqp
      exact assoc_encode_inj (fun kv hkv => (hw1.2.2.2 kv hkv).1.2.2)
        (fun kv hkv => (hw2.2.2.2 kv hkv).1.2.2) hqp
  exact ⟨hA, hUid, hRid, hAssoc⟩

/-- Witness for the amended C8 at a concrete well-formed request pair. -/
theorem C8_no_conflation_amended_witness :
    let r : Request := ⟨"GET", "/api/v1/tasks/t1", [("status", "p")], "u9"⟩
    apiVersion r = apiVersion r ∧ r.userID = r.userID ∧
      resourceIdOpt r = resourceIdOpt r ∧ cacheableAssoc r = cacheableAssoc r :=
  C8_no_conflation_amended _ _ (by decide) (by decide)
    ⟨Iff.rfl, rfl, Iff.rfl⟩ rfl

/-- Counterexample to C8 as stated: a collection read scoped to the
caller `"status=pending"` and an unscoped read filtered by
`status=pending` differ in caller scope and in allow-listed parameters,
yet collide on the very same cache key. -/
theorem C8_no_conflation_cex :
    let r1 : Request := ⟨"GET", "/api/v1/tasks", [], "status=pending"⟩
    let r2 : Request := ⟨"GET", "/api/v1/tasks", [("status", "pending")], ""⟩
    r1.userID ≠ r2.userID ∧ cacheableAssoc r1 ≠ cacheableAssoc r2 ∧
      buildCacheKey r1 = buildCacheKey r2 ∧
      buildCacheKey r1 = "v1:tasks:status=pending" := by
  refine ⟨by decide, by decide, by decide, by decide⟩

/-! The middleware request paths: invalidation traces, fail-open, hit
replay, and the write path (C3, C9, C10, C2). -/

theorem invalidateKeys_calls {σ : Type} (ops : StoreOps σ) :
    ∀ (ks : List String) (acc : σ × List StoreCall) (c : StoreCall),
      c ∈ (invalidateKeys ops acc ks).2 → c ∈ acc.2 ∨ ∃ k, c = .del k := by
  intro ks
  induction ks with
  | nil => intro acc c hc; exact Or.inl hc
  | cons k rest ih =>
    intro acc c hc
    simp only [invalidateKeys] at hc
    cases hdel : ops.del acc.1 k with
    | ok s2 =>
      rw [hdel] at hc
      rcases ih _ c hc with h | h
      · rcases List.mem_append.mp h with h2 | h2
        · exact Or.inl h2
        · exact Or.inr ⟨k, List.mem_singleton.mp h2⟩
      · exact Or.inr h
    | error e =>
      rw [hdel] at hc
      rcases ih _ c hc with h | h
      · rcases List.mem_append.mp h with h2 | h2
        · exact Or.inl h2
        · exact Or.inr ⟨k, List.mem_singleton.mp h2⟩
      · exact Or.inr h

theorem invalidatePatterns_calls {σ : Type} (ops : StoreOps σ) :
    ∀ (pats : List String) (acc : σ × List StoreCall) (c : StoreCall),
      c ∈ (invalidatePatterns ops acc pats).2 →
        c ∈ acc.2 ∨ (∃ p, c = .keys p) ∨ ∃ k, c = .del k := by
  intro pats
  induction pats with
  | nil => intro acc c hc; exact Or.inl hc
  | cons pat rest ih =>
    intro acc c hc
    simp only [invalidatePatterns] at hc
    cases hk : ops.keys acc.1 pat with
    | error e =>
      rw [hk] at hc
      rcases ih _ c hc with h | h
      · rcases List.mem_append.mp h with h2 | h2
        · exact Or.inl h2
        · exact Or.inr (Or.inl ⟨pat, List.mem_singleton.mp h2⟩)
      · exact Or.inr h
    | ok ks =>
      rw [hk] at hc
      rcases ih _ c hc with h | h
      · rcases invalidateKeys_calls ops ks _ c h with h2 | h2
        · rcases List.mem_append.mp h2 with h3 | h3
          · exact Or.inl h3
          · exact Or.inr (Or.inl ⟨pat, List.mem_singleton.mp h3⟩)
        · exact Or.inr (Or.inr h2)
      · exact Or.inr h

theorem invalidatePatterns_failStore (σ : Type) :
    ∀ (pats : List String) (acc : σ × List StoreCall),
      (invalidatePatterns (failStore σ) acc pats).1 = acc.1 := by
  intro pats
  induction pats with
  | nil => intro acc; rfl
  | cons pat rest ih => intro acc; simp only [invalidatePatterns, failStore]; exact ih _

/-- Claim C3: with every store operation failing, the overlay is a pure
pass-through: the client receives exactly the origin handler's response
(headers, status and body), the origin handler always runs, and the
store state is untouched; no error channel exists toward the client. -/
theorem C3_fail_open {σ : Type} (s : σ) (dur : Nat)
    (next : Request → List WEvent) (r : Request) :
    (CacheHandler (failStore σ) dur next s r).client
        = runEvents (next r) RespWriter.empty ∧
      (CacheHandler (failStore σ) dur next s r).originCalled = true ∧
      (CacheHandler (failStore σ) dur next s r).store = s := by
  unfold CacheHandler
  by_cases hm : r.method ≠ "GET"
  · rw [if_pos hm]
    exact ⟨rfl, rfl, invalidatePatterns_failStore σ _ _⟩
  · rw [if_neg hm]
    simp only [failStore]
    by_cases hst : recorderStatus (next r) = 200 ∨ recorderStatus (next r) = 201
    · rw [if_pos hst]
      exact ⟨rfl, rfl, rfl⟩
    · rw [if_neg hst]
      exact ⟨rfl, rfl, rfl⟩

/-- Claim C9: on a `GET` whose store lookup succeeds, the overlay
responds with exactly the stored bytes under `Content-Type:
application/json` and `X-Cache: HIT` headers, issues no further store
call, and never invokes the origin handler. -/
theorem C9_hit_replay {σ : Type} (ops : StoreOps σ) (s : σ) (dur : Nat)
    (next : Request → List WEvent) (r : Request) (v : Bytes)
    (hm : r.method = "GET")
    (hget : ops.get s (buildCacheKey r) = .ok v) :
    CacheHandler ops dur next s r =
      { client := ⟨[("Content-Type", "application/json"), ("X-Cache", "HIT")],
          none, v⟩
        store := s
        calls := [.get (buildCacheKey r)]
        originCalled := false } := by
  unfold CacheHandler
  rw [if_neg (by simp [hm]), hget]
  simp [RespWriter.apply, RespWriter.empty, hset]

/-- Claim C10: every non-`GET` request — `HEAD` and `OPTIONS` included —
takes the write path: the origin handler runs, the client sees exactly
its response, the store ends in the invalidation result, and the only
store calls issued are pattern enumerations and deletions (no cache
lookup, no cache populate). -/
theorem C10_non_get_write_path {σ : Type} (ops : StoreOps σ) (s : σ)
    (dur : Nat) (next : Request → List WEvent) (r : Request)
    (hm : r.method ≠ "GET") :
    (CacheHandler ops dur next s r).originCalled = true ∧
      (CacheHandler ops dur next s r).client = runEvents (next r) RespWriter.empty ∧
      (CacheHandler ops dur next s r).store = (invalidateRelatedCaches ops s r).1 ∧
      ∀ c ∈ (CacheHandler ops dur next s r).calls,
        (∃ p, c = .keys p) ∨ ∃ k, c = .del k := by
  unfold CacheHandler
  rw [if_pos hm]
  refine ⟨rfl, rfl, rfl, ?_⟩
  intro c hc
  rcases invalidatePatterns_calls ops (buildCachePatterns r) (s, []) c hc with h | h
  · cases h
  · exact h

/-- Witness for C10 on a `HEAD` request. -/
theorem C10_non_get_write_path_witness :
    (CacheHandler (failStore Unit) 300 (fun _ => []) () ⟨"HEAD", "/api/v1/tasks", [], ""⟩).originCalled = true ∧
      (CacheHandler (failStore Unit) 300 (fun _ => []) () ⟨"HEAD", "/api/v1/tasks", [], ""⟩).client
        = runEvents ((fun (_ : Request) => ([] : List WEvent)) ⟨"HEAD", "/api/v1/tasks", [], ""⟩) RespWriter.empty ∧
      (CacheHandler (failStore Unit) 300 (fun _ => []) () ⟨"HEAD", "/api/v1/tasks", [], ""⟩).store
        = (invalidateRelatedCaches (failStore Unit) () ⟨"HEAD", "/api/v1/tasks", [], ""⟩).1 ∧
      ∀ c ∈ (CacheHandler (failStore Unit) 300 (fun _ => []) () ⟨"HEAD", "/api/v1/tasks", [], ""⟩).calls,
        (∃ p, c = .keys p) ∨ ∃ k, c = .del k :=
  C10_non_get_write_path _ _ _ _ _ (by decide)

/-- Witness for C9: a populated live store entry is replayed verbatim. -/
theorem C9_hit_replay_witness :
    CacheHandler (memStore 1) 300 (fun _ => [])
        (rset ⟨[]⟩ 0 "v1:tasks" [7] 300) ⟨"GET", "/api/v1/tasks", [], ""⟩ =
      { client := ⟨[("Content-Type", "application/json"), ("X-Cache", "HIT")],
          none, [7]⟩
        store := rset ⟨[]⟩ 0 "v1:tasks" [7] 300
        calls := [.get "v1:tasks"]
        originCalled := false } :=
  C9_hit_replay _ _ _ _ _ [7] rfl rfl

/-- Claim C2, as amended: the overlay issues a store `set` call exactly
when the request is a `GET`, the lookup missed, and the recorded status
is `200` or `201` — not for every 2xx status (see the counterexample);
any `set` issued carries the computed key, the recorded bytes and the
configured expiration, and a non-`GET` request never issues one. -/
theorem C2_cache_population {σ : Type} (ops : StoreOps σ) (s : σ) (dur : Nat)
    (next : Request → List WEvent) (r : Request) :
    ((CacheHandler ops dur next s r).calls.any StoreCall.isSet = true ↔
      r.method = "GET" ∧ ops.get s (buildCacheKey r) = .error () ∧
        (recorderStatus (next r) = 200 ∨ recorderStatus (next r) = 201)) ∧
    (CacheHandler ops dur next s r).calls.all
      (fun c => !c.isSet ||
        (c == .set (buildCacheKey r) (recorderBody (next r)) dur)) = true := by
  by_cases hm : r.method = "GET"
  · unfold CacheHandler
    rw [if_neg (by simp [hm])]
    cases hget : ops.get s (buildCacheKey r) with
    | ok v =>
      constructor
      · simp [StoreCall.isSet, hget]
      · simp [StoreCall.isSet]
    | error e =>
      cases e
      by_cases hst : recorderStatus (next r) = 200 ∨ recorderStatus (next r) = 201
      · rw [if_pos hst]
        cases hset : ops.set s (buildCacheKey r) (recorderBody (next r)) dur with
        | ok s2 =>
          constructor
          · simp [StoreCall.isSet, hget, hm, hst]
          · simp [StoreCall.isSet]
        | error e2 =>
          constructor
          · simp [StoreCall.isSet, hget, hm, hst]
          · simp [StoreCall.isSet]
      · rw [if_neg hst]
        constructor
        · simp [StoreCall.isSet, hget, hst]
        · simp [StoreCall.isSet]
  · unfold CacheHandler
    rw [if_pos hm]
    constructor
    · constructor
      · intro h
        obtain ⟨c, hc, hcs⟩ := List.any_eq_true.mp h
        rcases invalidatePatterns_calls ops (buildCachePatterns r) (s, []) c hc
          with h2 | h2 | h2
        · cases h2
        · obtain ⟨p, rfl⟩ := h2; simp [StoreCall.isSet] at hcs
        · obtain ⟨k, rfl⟩ := h2; simp [StoreCall.isSet] at hcs
      · intro h; exact absurd h.1 hm
    · rw [List.all_eq_true]
      intro c hc
      rcases invalidatePatterns_calls ops (buildCachePatterns r) (s, []) c hc
        with h2 | h2 | h2
      · cases h2
      · obtain ⟨p, rfl⟩ := h2; simp [StoreCall.isSet]
      · obtain ⟨k, rfl⟩ := h2; simp [StoreCall.isSet]

/-- Witness for the amended C2 at concrete inputs. -/
theorem C2_cache_population_witness :
    ((CacheHandler (failStore Unit) 300 (fun _ => [.writeHeader 200]) ()
          ⟨"GET", "/api/v1/tasks", [], ""⟩).calls.any StoreCall.isSet = true ↔
      (⟨"GET", "/api/v1/tasks", [], ""⟩ : Request).method = "GET" ∧
        (failStore Unit).get ()
            (buildCacheKey ⟨"GET", "/api/v1/tasks", [], ""⟩) = .error () ∧
        (recorderStatus ((fun (_ : Request) => [WEvent.writeHeader 200])
              ⟨"GET", "/api/v1/tasks", [], ""⟩) = 200 ∨
          recorderStatus ((fun (_ : Request) => [WEvent.writeHeader 200])
              ⟨"GET", "/api/v1/tasks", [], ""⟩) = 201)) ∧
    (CacheHandler (failStore Unit) 300 (fun _ => [.writeHeader 200]) ()
        ⟨"GET", "/api/v1/tasks", [], ""⟩).calls.all
      (fun c => !c.isSet ||
        (c == .set (buildCacheKey ⟨"GET", "/api/v1/tasks", [], ""⟩)
          (recorderBody ((fun (_ : Request) => [WEvent.writeHeader 200])
            ⟨"GET", "/api/v1/tasks", [], ""⟩)) 300)) = true :=
  C2_cache_population _ _ _ _ _

/-- Counterexample to C2 as stated: a `GET` miss whose origin handler
answers `204 No Content` — a success (2xx) status — is never written to
the store, because the code tests exactly for `200` and `201`. -/
theorem C2_success_not_cached_cex :
    recorderStatus [WEvent.writeHeader 204, WEvent.write [1]] = 204 ∧
      (200 ≤ 204 ∧ 204 < 300) ∧
      (CacheHandler (memStore 0) 300 (fun _ => [.writeHeader 204, .write [1]])
          ⟨[]⟩ ⟨"GET", "/api/v1/tasks", [], ""⟩).calls.any StoreCall.isSet = false ∧
      (CacheHandler (memStore 0) 300 (fun _ => [.writeHeader 204, .write [1]])
          ⟨[]⟩ ⟨"GET", "/api/v1/tasks", [], ""⟩).originCalled = true := by
  decide

/-- Claim C1 (refuted, code bug): the collection key of an unscoped,
parameterless `GET /api/v1/tasks` is `v1:tasks`, yet the only pattern a
`POST /api/v1/tasks` generates is `v1:tasks:*`, which does not match it
(`'*'` sits after a literal `':'` the key does not contain).  Running the
overlay end to end: the read populates `v1:tasks`, the write's
invalidation leaves the entry in the store, and a later read is served
the stale entry without consulting the origin handler. -/
theorem C1_invalidation_gap :
    buildCacheKey ⟨"GET", "/api/v1/tasks", [], ""⟩ = "v1:tasks" ∧
      buildCachePatterns ⟨"POST", "/api/v1/tasks", [], ""⟩ = ["v1:tasks:*"] ∧
      (buildCachePatterns ⟨"POST", "/api/v1/tasks", [], ""⟩).all
        (fun pat => !globMatch pat (buildCacheKey ⟨"GET", "/api/v1/tasks", [], ""⟩)) = true ∧
      ((CacheHandler (memStore 1) 300 (fun _ => [.writeHeader 200, .write [65]])
            (CacheHandler (memStore 0) 300 (fun _ => [.writeHeader 200, .write [65]])
              ⟨[]⟩ ⟨"GET", "/api/v1/tasks", [], ""⟩).store
            ⟨"POST", "/api/v1/tasks", [], ""⟩).store.entries.any
          (fun e => e.1 == "v1:tasks") = true) ∧
      (CacheHandler (memStore 2) 300 (fun _ => [.writeHeader 200, .write [65]])
          (CacheHandler (memStore 1) 300 (fun _ => [.writeHeader 200, .write [65]])
            (CacheHandler (memStore 0) 300 (fun _ => [.writeHeader 200, .write [65]])
              ⟨[]⟩ ⟨"GET", "/api/v1/tasks", [], ""⟩).store
            ⟨"POST", "/api/v1/tasks", [], ""⟩).store
          ⟨"GET", "/api/v1/tasks", [], ""⟩).originCalled = false := by
  decide

/-! Round-trip through the store's JSON/base64 encoding (C5). -/

theorem b64val_b64char : ∀ i, i < 64 → b64val (b64char i) = some i := by decide

theorem b64char_ne_pad : ∀ i, i < 64 → b64char i ≠ '=' := by decide

theorem b64_roundtrip :
    ∀ B : Bytes, (∀ b ∈ B, b < 256) → b64decode (b64encode B) = some B
  | [], _ => rfl
  | [b1], h => by
    have hb1 : b1 < 256 := h b1 (by simp)
    simp only [b64encode, b64decode]
    rw [b64val_b64char _ (by omega), b64val_b64char _ (by omega)]
    simp only [if_pos rfl, and_self, if_true]
    have : b1 / 4 * 4 + b1 % 4 * 16 / 16 = b1 := by omega
    rw [this]
  | [b1, b2], h => by
    have hb1 : b1 < 256 := h b1 (by simp)
    have hb2 : b2 < 256 := h b2 (by simp)
    have v1 := b64val_b64char (b1 / 4) (by omega)
    have v2 := b64val_b64char (b1 % 4 * 16 + b2 / 16) (by omega)
    have v3 := b64val_b64char (b2 % 16 * 4) (by omega)
    have n3 := b64char_ne_pad (b2 % 16 * 4) (by omega)
    simp only [b64encode, b64decode, v1, v2, v3, n3, if_false, ite_false,
      ite_true, if_pos rfl]
    have e1 : b1 / 4 * 4 + (b1 % 4 * 16 + b2 / 16) / 16 = b1 := by omega
    have e2 : (b1 % 4 * 16 + b2 / 16) % 16 * 16 + b2 % 16 * 4 / 4 = b2 := by
      omega
    rw [e1, e2]
  | b1 :: b2 :: b3 :: b4 :: rest, h => by
    have hb1 : b1 < 256 := h b1 (by simp)
    have hb2 : b2 < 256 := h b2 (by simp)
    have hb3 : b3 < 256 := h b3 (by simp)
    have ih := b64_roundtrip (b4 :: rest) (fun b hb => h b (by simp at hb ⊢; tauto))
    have v1 := b64val_b64char (b1 / 4) (by omega)
    have v2 := b64val_b64char (b1 % 4 * 16 + b2 / 16) (by omega)
    have v3 := b64val_b64char (b2 % 16 * 4 + b3 / 64) (by omega)
    have v4 := b64val_b64char (b3 % 64) (by omega)
    have n3 := b64char_ne_pad (b2 % 16 * 4 + b3 / 64) (by omega)
    have n4 := b64char_ne_pad (b3 % 64) (by omega)
    simp only [b64encode, b64decode, v1, v2, v3, v4, n3, n4, if_false,
      ite_false, ih]
    have e1 : b1 / 4 * 4 + (b1 % 4 * 16 + b2 / 16) / 16 = b1 := by omega
    have e2 : (b1 % 4 * 16 + b2 / 16) % 16 * 16 + (b2 % 16 * 4 + b3 / 64) / 4 = b2 := by
      omega
    have e3 : (b2 % 16 * 4 + b3 / 64) % 4 * 64 + b3 % 64 = b3 := by omega
    rw [e1, e2, e3]
  | [b1, b2, b3], h => by
    have hb1 : b1 < 256 := h b1 (by simp)
    have hb2 : b2 < 256 := h b2 (by simp)
    have hb3 : b3 < 256 := h b3 (by simp)
    have ih : b64decode (b64encode []) = some [] := rfl
    have v1 := b64val_b64char (b1 / 4) (by omega)
    have v2 := b64val_b64char (b1 % 4 * 16 + b2 / 16) (by omega)
    have v3 := b64val_b64char (b2 % 16 * 4 + b3 / 64) (by omega)
    have v4 := b64val_b64char (b3 % 64) (by omega)
    have n3 := b64char_ne_pad (b2 % 16 * 4 + b3 / 64) (by omega)
    have n4 := b64char_ne_pad (b3 % 64) (by omega)
    simp only [b64encode, b64decode, v1, v2, v3, v4, n3, n4, if_false,
      ite_false, ih]
    have e1 : b1 / 4 * 4 + (b1 % 4 * 16 + b2 / 16) / 16 = b1 := by omega
    have e2 : (b1 % 4 * 16 + b2 / 16) % 16 * 16 + (b2 % 16 * 4 + b3 / 64) / 4 = b2 := by
      omega
    have e3 : (b2 % 16 * 4 + b3 / 64) % 4 * 64 + b3 % 64 = b3 := by omega
    rw [e1, e2, e3]

theorem jsonUnmarshal_jsonMarshal {B : Bytes} (h : ∀ b ∈ B, b < 256) :
    jsonUnmarshal (jsonMarshal B) = some B := by
  have hg : (b64encode B ++ ['\x22']).getLast? = some '\x22' :=
    List.getLast?_concat _
  simp only [jsonMarshal, jsonUnmarshal, hg, if_true, ite_true,
    List.dropLast_concat]
  exact b64_roundtrip B h

theorem find?_setEntry :
    ∀ (l : List (String × List Char × Nat)) (k : String) (v : List Char) (e : Nat),
      (setEntry l k v e).find? (fun en => en.1 == k) = some (k, v, e) := by
  intro l
  induction l with
  | nil => intro k v e; simp [setEntry, List.find?]
  | cons a t ih =>
    intro k v e
    obtain ⟨k2, p⟩ := a
    simp only [setEntry]
    by_cases h : k2 = k
    · rw [if_pos h]
      simp [List.find?]
    · rw [if_neg h]
      rw [List.find?_cons_of_neg _ (by simpa using h)]
      exact ih k v e

/-- Claim C5: bytes stored under a key via `RedisCache.Set` (JSON/base64
marshalled, as the overlay's populate step does with the fixed TTL) are
returned byte-for-byte by `RedisCache.Get` at any instant before the
entry's expiry.  The byte-range hypothesis says the list models a Go
`[]byte`. -/
theorem C5_round_trip (m : RedisModel) (now ttl t2 : Nat) (K : String)
    (B : Bytes) (hB : ∀ b ∈ B, b < 256) (ht : t2 < now + ttl) :
    rget (rset m now K B ttl) t2 K = some B := by
  unfold rget rset
  rw [find?_setEntry]
  simp only []
  rw [if_pos ht]
  exact jsonUnmarshal_jsonMarshal hB

/-- Witness for C5 at a concrete store, key and payload. -/
theorem C5_round_trip_witness :
    rget (rset ⟨[]⟩ 0 "v1:tasks:status=pending" [72, 0, 255] 300) 299
        "v1:tasks:status=pending" = some [72, 0, 255] :=
  C5_round_trip ⟨[]⟩ 0 300 299 "v1:tasks:status=pending" [72, 0, 255]
    (by decide) (by decide)
